import Mathlib

/-!
Verification of the URL feature-extraction core of the phishing-detector
web app (`src/app.py`).

Strings are modelled as `List Char`. The parts of CPython 3.11's
`urllib.parse.urlsplit` that `extract_features` observes (the `scheme` and
`netloc` attributes) are embedded faithfully, including the removal of the
unsafe bytes tab/CR/LF from the input, the scheme-recognition rule, the
`//`-authority rule, the `ValueError("Invalid IPv6 URL")` raised on a
netloc with mismatched square brackets, and the
`ValueError("netloc ... contains invalid characters under NFKC
normalization")` raised by `_checknetloc` on certain non-ASCII netlocs.
The NFKC normalization of `unicodedata` enters `_checknetloc` only through
the question whether the normalized netloc contains one of the five
characters `/ ? # @ :`; that question is decided by a finite table of the
19 non-ASCII code points whose NFKC normalization contains one of them
(see `nfkcSpecialSources`).  Python's `re` character classes and anchors
are embedded by their documented semantics; `\d` is modelled as the ASCII
digits (the hosts involved in the claims are ASCII).
-/

instance {ε α : Type} [DecidableEq ε] [DecidableEq α] : DecidableEq (Except ε α)
  | Except.error a, Except.error b =>
    if h : a = b then Decidable.isTrue (by rw [h])
    else Decidable.isFalse fun he => h (Except.error.inj he)
  | Except.error _, Except.ok _ => Decidable.isFalse fun h => Except.noConfusion h
  | Except.ok _, Except.error _ => Decidable.isFalse fun h => Except.noConfusion h
  | Except.ok a, Except.ok b =>
    if h : a = b then Decidable.isTrue (by rw [h])
    else Decidable.isFalse fun he => h (Except.ok.inj he)

/-- Converts a Lean string literal to the `List Char` representation used
throughout this development. -/
def strL (s : String) : List Char :=
  s.data

/-- Embeds the removal of `_UNSAFE_URL_BYTES_TO_REMOVE = ["\t", "\r", "\n"]`
performed by `urllib.parse.urlsplit` on its input before any parsing. -/
def removeUnsafe (l : List Char) : List Char :=
  l.filter fun c => !(c == '\t' || c == '\r' || c == '\n')

/-- The characters allowed in a URL scheme,
`urllib.parse.scheme_chars = ascii letters, digits and "+-."`. -/
def schemeChars : List Char :=
  strL "abcdefghijklmnopqrstuvwxyzABCDEFGHIJKLMNOPQRSTUVWXYZ0123456789+-."

/-- True on ASCII letters: Python `c.isascii() and c.isalpha()`. -/
def isAsciiAlpha (c : Char) : Bool :=
  (65 ≤ c.toNat && c.toNat ≤ 90) || (97 ≤ c.toNat && c.toNat ≤ 122)

/-- Whether the first character of `l` is an ASCII letter (`url[0].isascii()
and url[0].isalpha()` in `urlsplit`; `False` on the empty list). -/
def headIsAsciiAlpha (l : List Char) : Bool :=
  match l with
  | [] => false
  | c :: _ => isAsciiAlpha c

/-- ASCII lowercasing, the effect of Python's `str.lower` on the scheme
candidate (which at that point consists only of `schemeChars`, all ASCII). -/
def toLowerAscii (l : List Char) : List Char :=
  l.map fun c => if 65 ≤ c.toNat ∧ c.toNat ≤ 90 then Char.ofNat (c.toNat + 32) else c

/-- Embeds the scheme-recognition step of `urlsplit`:
`i = url.find(':')`; when `i > 0`, `url[0]` is an ASCII letter and every
character of `url[:i]` is in `scheme_chars`, the scheme is `url[:i].lower()`
and the remainder is `url[i+1:]`; otherwise the scheme is empty and the url
is unchanged. -/
def splitScheme (l : List Char) : List Char × List Char :=
  match l.findIdx? (fun c => c == ':') with
  | none => ([], l)
  | some i =>
    if 0 < i ∧ headIsAsciiAlpha l = true ∧ (l.take i).all (schemeChars.contains ·) = true then
      (toLowerAscii (l.take i), l.drop (i + 1))
    else
      ([], l)

/-- The characters at which `urllib.parse._splitnetloc` ends the netloc. -/
def isNetlocDelim (c : Char) : Bool :=
  c == '/' || c == '?' || c == '#'

/-- Python `str.isascii`: every code point is below 128. -/
def isAsciiStr (l : List Char) : Bool :=
  l.all fun c => c.toNat ≤ 127

/-- The 19 non-ASCII code points whose NFKC normalization contains one of
the five characters `/ ? # @ :` checked by `_checknetloc` (computed from
`unicodedata.normalize('NFKC', chr(c))` of CPython 3.11): U+2047 `??`,
U+2048 `?!`, U+2049 `!?`, U+2100 `a/c`, U+2101 `a/s`, U+2105 `c/o`,
U+2106 `c/u`, U+2A74 `::=`, the vertical, small and fullwidth forms
U+FE13, U+FE16, U+FE55, U+FE56, U+FE5F, U+FE6B, U+FF03, U+FF0F, U+FF1A,
U+FF1F, U+FF20 of colon, question mark, number sign, solidus and
commercial at.  No canonical composition produces or consumes an ASCII
character, so the NFKC normalization of a netloc contains one of the five
checked characters exactly when one of the netloc's characters is in this
table. -/
def nfkcSpecialSources : List Char :=
  [Char.ofNat 0x2047, Char.ofNat 0x2048, Char.ofNat 0x2049,
   Char.ofNat 0x2100, Char.ofNat 0x2101, Char.ofNat 0x2105, Char.ofNat 0x2106,
   Char.ofNat 0x2A74,
   Char.ofNat 0xFE13, Char.ofNat 0xFE16, Char.ofNat 0xFE55, Char.ofNat 0xFE56,
   Char.ofNat 0xFE5F, Char.ofNat 0xFE6B,
   Char.ofNat 0xFF03, Char.ofNat 0xFF0F, Char.ofNat 0xFF1A, Char.ofNat 0xFF1F,
   Char.ofNat 0xFF20]

/-- Embeds `urllib.parse._checknetloc`: an empty or all-ASCII netloc
passes; otherwise the ASCII characters `@ : # ?` are removed ("characters
already included") and the check raises exactly when the NFKC
normalization of the remainder contains one of `/ ? # @ :` — by the table
property of `nfkcSpecialSources`, exactly when the remainder contains a
character of that table.  (The guard `if n == netloc2: return` of the
source never masks a raise: a netloc produced by `_splitnetloc` contains
none of the five checked characters after the removal, so whenever the
normalization contains one it also differs from the input.) -/
def checknetlocRaises (netloc : List Char) : Bool :=
  if netloc = [] || isAsciiStr netloc then
    false
  else
    (netloc.filter fun c => !(c == '@' || c == ':' || c == '#' || c == '?')).any
      fun c => nfkcSpecialSources.contains c

/-- Message of the `ValueError` raised by `_checknetloc`. -/
def nfkcErrorMessage (netloc : List Char) : String :=
  "netloc '" ++ String.mk netloc ++ "' contains invalid characters under NFKC normalization"

/-- Embeds the `scheme`/`netloc` view of `urllib.parse.urlsplit`
(CPython 3.11): strip the unsafe bytes, recognise an optional scheme, and
when the remainder starts with `//` read the netloc up to the first `/`,
`?` or `#` (`_splitnetloc`).  A netloc containing `[` without `]` or `]`
without `[` raises `ValueError("Invalid IPv6 URL")`, and `_checknetloc`
raises its NFKC-normalization `ValueError` on the netlocs described at
`checknetlocRaises`; both are modelled as `Except.error`.  When the
remainder does not start with `//` the netloc is empty and `_checknetloc`
passes trivially. -/
def urlsplitPy (url0 : List Char) : Except String (List Char × List Char) :=
  let url := removeUnsafe url0
  let sr := splitScheme url
  if (sr.2).take 2 = strL "//" then
    let netloc := ((sr.2).drop 2).takeWhile (fun c => !(isNetlocDelim c))
    if ('[' ∈ netloc ∧ ']' ∉ netloc) ∨ (']' ∈ netloc ∧ '[' ∉ netloc) then
      Except.error "Invalid IPv6 URL"
    else if checknetlocRaises netloc then
      Except.error (nfkcErrorMessage netloc)
    else
      Except.ok (sr.1, netloc)
  else
    Except.ok (sr.1, [])

/-- Embeds Python's `str.split(sep)` for a one-character separator: the
split of the empty string is `[""]`, and every separator occurrence opens a
new (possibly empty) part. -/
def splitOnChar (sep : Char) : List Char → List (List Char)
  | [] => [[]]
  | c :: cs =>
    if c = sep then
      [] :: splitOnChar sep cs
    else
      match splitOnChar sep cs with
      | [] => [[c]]
      | p :: ps => (c :: p) :: ps

/-- Python `s.startswith(c)` for a single character. -/
def startsWithChar (c : Char) : List Char → Bool
  | [] => false
  | x :: _ => x = c

/-- Python `s.endswith(c)` for a single character. -/
def endsWithChar (c : Char) : List Char → Bool
  | [] => false
  | [x] => x = c
  | _ :: x :: xs => endsWithChar c (x :: xs)

/-- Exact whole-string match of the dotted-quad pattern
`\d{1,3}\.\d{1,3}\.\d{1,3}\.\d{1,3}`: exactly four dot-separated groups,
each of one to three digits.  Because each group consists of digits only,
the anchored regex matches a string exactly when its dot-split has this
shape. -/
def matchesDottedQuad (s : List Char) : Bool :=
  let ps := splitOnChar '.' s
  ps.length == 4 && ps.all fun p => 1 ≤ p.length && p.length ≤ 3 && p.all Char.isDigit

/-- Embeds `re.match(r'^\d{1,3}\.\d{1,3}\.\d{1,3}\.\d{1,3}$', s)` as a
truth value: Python's `$` (without `re.MULTILINE`) matches at the end of
the string or just before a trailing newline, so the regex accepts `s`
exactly when `s`, or `s` minus a trailing newline, is an exact dotted-quad
match. -/
def pyMatchDottedQuad (s : List Char) : Bool :=
  matchesDottedQuad s || (endsWithChar '\n' s && matchesDottedQuad s.dropLast)

/-- Embeds the character class `[@?-_&=%]` of `app.py` line 43.  Inside a
Python character class `?-_` is a range, so the class accepts `@`, the
code points from `?` (63) through `_` (95) — which include the uppercase
ASCII letters and `[ \ ] ^` — and `&`, `=`, `%`; it does NOT accept a
literal hyphen. -/
def inSpecialClass (c : Char) : Bool :=
  c == '@' || (63 ≤ c.toNat && c.toNat ≤ 95) || c == '&' || c == '=' || c == '%'

/-- The fixed-schema feature record of §3, one field per key of the
`features` dict built by `extract_features`.  All fields are natural
numbers; the boolean ones take only the values 0 and 1. -/
structure FeatureRecord where
  url_length : Nat
  hostname_length : Nat
  ip_in_url : Nat
  https_in_url : Nat
  special_chars : Nat
  num_dots : Nat
  at_sign : Nat
  hyphen_in_url : Nat
  hyphen_in_subdomain : Nat
  long_domain : Nat
  deriving Repr, DecidableEq

/-- Builds the `features` dict of `app.py` lines 39–52 from the raw url and
the parsed `scheme` and `netloc`, field by field in source order. -/
def mkRecord (url scheme netloc : List Char) : FeatureRecord :=
  { url_length := url.length
    hostname_length := netloc.length
    ip_in_url := if pyMatchDottedQuad netloc then 1 else 0
    https_in_url := if scheme = strL "https" then 1 else 0
    special_chars := (url.filter inSpecialClass).length
    num_dots := url.count '.'
    at_sign := if '@' ∈ url then 1 else 0
    hyphen_in_url := if '-' ∈ url then 1 else 0
    hyphen_in_subdomain :=
      if (splitOnChar '.' netloc).any (fun p => startsWithChar '-' p || endsWithChar '-' p) then 1
      else 0
    long_domain := if 30 < ((splitOnChar '.' netloc).headD []).length then 1 else 0 }

/-- Embeds `extract_features` of `app.py` lines 35–54: parse the url with
`urlparse` (whose `ValueError` propagates, modelled as `Except.error`) and
populate the feature record. -/
def extract_features (url : List Char) : Except String FeatureRecord :=
  match urlsplitPy url with
  | Except.error e => Except.error e
  | Except.ok (scheme, netloc) => Except.ok (mkRecord url scheme netloc)

/-- The netloc that `extract_features` reads for `url` (empty when parsing
fails, in which case `extract_features` returns no record anyway). -/
def netlocOf (url : List Char) : List Char :=
  match urlsplitPy url with
  | Except.error _ => []
  | Except.ok (_, netloc) => netloc

/-- The single-row `pd.DataFrame([features])` returned by
`extract_features`: the columns in the dict's insertion order, paired with
their values. -/
def toRow (r : FeatureRecord) : List (String × Nat) :=
  [("url_length", r.url_length),
   ("hostname_length", r.hostname_length),
   ("ip_in_url", r.ip_in_url),
   ("https_in_url", r.https_in_url),
   ("special_chars", r.special_chars),
   ("num_dots", r.num_dots),
   ("at_sign", r.at_sign),
   ("hyphen_in_url", r.hyphen_in_url),
   ("hyphen_in_subdomain", r.hyphen_in_subdomain),
   ("long_domain", r.long_domain)]

/-- The feature row as a one-row table, column order included. -/
def extract_features_df (url : List Char) : Except String (List (String × Nat)) :=
  Except.map toRow (extract_features url)

/-- The possible outcomes of the submit-button handler of `app.py`
lines 76–85: either the "please enter a URL" warning with no extraction or
classification, or classification of the extracted features. -/
inductive SubmitAction where
  | promptForUrl : SubmitAction
  | classify : Except String FeatureRecord → SubmitAction
  deriving Repr

/-- Embeds the button handler: `if not user_input or user_input ==
"https://"` show the warning, else run `extract_features` and hand the
result to the model.  `promptForUrl` is the branch in which neither
`extract_features` nor `model.predict`/`model.predict_proba` is invoked. -/
def handleSubmit (userInput : List Char) : SubmitAction :=
  if userInput = [] ∨ userInput = strL "https://" then
    SubmitAction.promptForUrl
  else
    SubmitAction.classify (extract_features userInput)

/-- Refinement reference for the `special_chars` claim, following the
spec's words only: the count of characters of the URL that belong to the
literal set `{@, ?, -, _, &, =, %}`. -/
def specialCharsSpec (url : List Char) : Nat :=
  (url.filter fun c =>
    c == '@' || c == '?' || c == '-' || c == '_' || c == '&' || c == '=' || c == '%').length

theorem mem_of_takeWhile_mem {p : Char → Bool} {x : Char} :
    ∀ {l : List Char}, x ∈ l.takeWhile p → x ∈ l := by
  intro l
  induction l with
  | nil => intro h; simp at h
  | cons c cs ih =>
    intro h
    cases hc : p c
    · simp [List.takeWhile_cons, hc] at h
    · simp only [List.takeWhile_cons, hc, if_true, List.mem_cons] at h
      rcases h with h | h
      · exact h ▸ List.mem_cons_self c cs
      · exact List.mem_cons_of_mem c (ih h)

theorem mem_of_startsWithChar {c : Char} {l : List Char} (h : startsWithChar c l = true) :
    c ∈ l := by
  cases l with
  | nil => simp [startsWithChar] at h
  | cons a as =>
    simp only [startsWithChar, decide_eq_true_eq] at h
    exact h ▸ List.mem_cons_self a as

theorem mem_of_endsWithChar {c : Char} : ∀ {l : List Char}, endsWithChar c l = true → c ∈ l := by
  intro l
  induction l with
  | nil => intro h; simp [endsWithChar] at h
  | cons a as ih =>
    intro h
    cases as with
    | nil =>
      simp only [endsWithChar, decide_eq_true_eq] at h
      simp [h]
    | cons b bs =>
      simp only [endsWithChar] at h
      exact List.mem_cons_of_mem a (ih h)

theorem splitOnChar_ne_nil (sep : Char) : ∀ l : List Char, splitOnChar sep l ≠ [] := by
  intro l
  cases l with
  | nil => simp [splitOnChar]
  | cons c cs =>
    simp only [splitOnChar]
    split
    · simp
    · split <;> simp

theorem mem_of_mem_splitOnChar {sep x : Char} :
    ∀ {l p : List Char}, p ∈ splitOnChar sep l → x ∈ p → x ∈ l := by
  intro l
  induction l with
  | nil =>
    intro p hp hx
    simp [splitOnChar] at hp
    subst hp
    simp at hx
  | cons c cs ih =>
    intro p hp hx
    by_cases hc : c = sep
    · rw [splitOnChar, if_pos hc] at hp
      rcases List.mem_cons.mp hp with h | h
      · subst h; simp at hx
      · exact List.mem_cons_of_mem c (ih h hx)
    · rw [splitOnChar, if_neg hc] at hp
      cases hsp : splitOnChar sep cs with
      | nil => exact absurd hsp (splitOnChar_ne_nil sep cs)
      | cons q qs =>
        rw [hsp] at hp
        rcases List.mem_cons.mp hp with h | h
        · subst h
          rcases List.mem_cons.mp hx with h' | h'
          · exact h' ▸ List.mem_cons_self c cs
          · exact List.mem_cons_of_mem c (ih (hsp ▸ List.mem_cons_self q qs) h')
        · exact List.mem_cons_of_mem c (ih (hsp ▸ List.mem_cons_of_mem q h) hx)

theorem mem_of_splitScheme_snd {x : Char} {l : List Char} (h : x ∈ (splitScheme l).2) :
    x ∈ l := by
  unfold splitScheme at h
  cases hf : l.findIdx? (fun c => c == ':') <;> simp only [hf] at h
  · exact h
  · split at h
    · exact List.mem_of_mem_drop h
    · exact h

theorem netloc_mem {u sch nl : List Char} (h : urlsplitPy u = Except.ok (sch, nl)) :
    ∀ {x : Char}, x ∈ nl → x ∈ removeUnsafe u := by
  intro x hx
  simp only [urlsplitPy] at h
  split at h
  · split at h
    · simp at h
    · split at h
      · simp at h
      · rw [Except.ok.injEq, Prod.mk.injEq] at h
        rw [← h.2] at hx
        exact mem_of_splitScheme_snd (List.mem_of_mem_drop (mem_of_takeWhile_mem hx))
  · rw [Except.ok.injEq, Prod.mk.injEq] at h
    rw [← h.2] at hx
    simp at hx

theorem not_newline_mem_netloc {u sch nl : List Char} (h : urlsplitPy u = Except.ok (sch, nl)) :
    '\n' ∉ nl := by
  intro hx
  have h2 := netloc_mem h hx
  rw [removeUnsafe, List.mem_filter] at h2
  simpa using h2.2

theorem extract_ok_elim {u : List Char} {r : FeatureRecord}
    (h : extract_features u = Except.ok r) :
    ∃ sch nl, urlsplitPy u = Except.ok (sch, nl) ∧ r = mkRecord u sch nl ∧ netlocOf u = nl := by
  cases hq : urlsplitPy u with
  | error e => simp [extract_features, hq] at h
  | ok pr =>
    cases pr with
    | mk sch nl =>
      simp only [extract_features, hq, Except.ok.injEq] at h
      exact ⟨sch, nl, rfl, h.symm, by simp [netlocOf, hq]⟩

/-- C2 (code bug): the claim (and the spec's table) says `special_chars`
counts the characters in the literal set `{@, ?, -, _, &, =, %}`, but the
regex `[@?-_&=%]` of `app.py` line 43 contains the accidental range `?-_`
(code points 63–95).  The code therefore gives 0 on the input `"-"` (the
claimed set gives 1) and 1 on the input `"A"` (the claimed set gives 0). -/
theorem special_chars_regex_range_eval :
    Except.map FeatureRecord.special_chars (extract_features (strL "-")) = Except.ok 0 ∧
    specialCharsSpec (strL "-") = 1 ∧
    Except.map FeatureRecord.special_chars (extract_features (strL "A")) = Except.ok 1 ∧
    specialCharsSpec (strL "A") = 0 := by decide

/-- C3 (counterexample): the claim asserts
`extract_features("https://example.com")` has url_length = 20, but the
string `"https://example.com"` has 19 characters. -/
theorem example_com_url_length_not_20 :
    Except.map FeatureRecord.url_length (extract_features (strL "https://example.com")) ≠
      Except.ok 20 := by decide

/-- C3 (amended): `extract_features("https://example.com")` returns
https_in_url = 1, at_sign = 0, ip_in_url = 0, num_dots = 1,
hyphen_in_url = 0, long_domain = 0, hyphen_in_subdomain = 0,
hostname_length = 11 and url_length = 19. -/
theorem example_com_features :
    Except.map FeatureRecord.https_in_url (extract_features (strL "https://example.com")) = Except.ok 1 ∧
    Except.map FeatureRecord.at_sign (extract_features (strL "https://example.com")) = Except.ok 0 ∧
    Except.map FeatureRecord.ip_in_url (extract_features (strL "https://example.com")) = Except.ok 0 ∧
    Except.map FeatureRecord.num_dots (extract_features (strL "https://example.com")) = Except.ok 1 ∧
    Except.map FeatureRecord.hyphen_in_url (extract_features (strL "https://example.com")) = Except.ok 0 ∧
    Except.map FeatureRecord.long_domain (extract_features (strL "https://example.com")) = Except.ok 0 ∧
    Except.map FeatureRecord.hyphen_in_subdomain (extract_features (strL "https://example.com")) = Except.ok 0 ∧
    Except.map FeatureRecord.hostname_length (extract_features (strL "https://example.com")) = Except.ok 11 ∧
    Except.map FeatureRecord.url_length (extract_features (strL "https://example.com")) = Except.ok 19 := by
  decide

/-- C4: whenever `extract_features` returns a record, `ip_in_url` is 1 iff
the parsed host is an exact whole-string match of the dotted-quad pattern
(no octet range validation); in particular a host of `999.999.999.999`
yields 1, and `"http://192.168.1.1/login"` yields ip_in_url = 1 and
https_in_url = 0.  The `$`-before-trailing-newline subtlety of Python's
`re` cannot fire because `urlsplit` removes newlines from its input, so the
match is genuinely whole-string. -/
theorem ip_in_url_iff_dotted_quad :
    (∀ (u : List Char) (r : FeatureRecord), extract_features u = Except.ok r →
        (r.ip_in_url = 1 ↔ matchesDottedQuad (netlocOf u) = true)) ∧
    Except.map FeatureRecord.ip_in_url (extract_features (strL "http://999.999.999.999")) = Except.ok 1 ∧
    Except.map FeatureRecord.ip_in_url (extract_features (strL "http://192.168.1.1/login")) = Except.ok 1 ∧
    Except.map FeatureRecord.https_in_url (extract_features (strL "http://192.168.1.1/login")) = Except.ok 0 := by
  refine ⟨?_, by decide, by decide, by decide⟩
  intro u r h
  obtain ⟨sch, nl, hq, hr, hnet⟩ := extract_ok_elim h
  subst hr
  rw [hnet]
  have hnn : endsWithChar '\n' nl = false := by
    cases he : endsWithChar '\n' nl
    · rfl
    · exact absurd (mem_of_endsWithChar he) (not_newline_mem_netloc hq)
  simp only [mkRecord, pyMatchDottedQuad, hnn, Bool.false_and, Bool.or_false]
  cases hm : matchesDottedQuad nl <;> simp [hm]

/-- C4 (witness): the equivalence instantiated at `"http://1.2.3.4"`. -/
theorem ip_in_url_iff_dotted_quad_witness :
    matchesDottedQuad (netlocOf (strL "http://1.2.3.4")) = true :=
  (ip_in_url_iff_dotted_quad.1 (strL "http://1.2.3.4") ⟨14, 7, 1, 0, 0, 3, 0, 0, 0, 0⟩
    (by decide)).mp (by decide)

/-- C5: whenever `extract_features` returns a record,
`hyphen_in_subdomain` is 1 iff some dot-separated label of the parsed host
starts or ends with a hyphen; an empty host gives 0; the hosts
`-evil.com` and `evil-.com` give 1 while a host whose hyphens are all
interior (`sub--domain.example.com`) gives 0. -/
theorem hyphen_in_subdomain_iff_label_edge :
    (∀ (u : List Char) (r : FeatureRecord), extract_features u = Except.ok r →
        (r.hyphen_in_subdomain = 1 ↔
          ∃ p ∈ splitOnChar '.' (netlocOf u),
            startsWithChar '-' p = true ∨ endsWithChar '-' p = true)) ∧
    (∀ (u : List Char) (r : FeatureRecord), extract_features u = Except.ok r →
        netlocOf u = [] → r.hyphen_in_subdomain = 0) ∧
    Except.map FeatureRecord.hyphen_in_subdomain (extract_features (strL "http://-evil.com")) = Except.ok 1 ∧
    Except.map FeatureRecord.hyphen_in_subdomain (extract_features (strL "http://evil-.com")) = Except.ok 1 ∧
    Except.map FeatureRecord.hyphen_in_subdomain (extract_features (strL "http://sub--domain.example.com")) = Except.ok 0 := by
  refine ⟨?_, ?_, by decide, by decide, by decide⟩
  · intro u r h
    obtain ⟨sch, nl, hq, hr, hnet⟩ := extract_ok_elim h
    subst hr
    rw [hnet]
    simp only [mkRecord]
    have key : ((splitOnChar '.' nl).any
          (fun p => startsWithChar '-' p || endsWithChar '-' p) = true) ↔
        ∃ p ∈ splitOnChar '.' nl,
          startsWithChar '-' p = true ∨ endsWithChar '-' p = true := by
      rw [List.any_eq_true]
      constructor
      · rintro ⟨p, hp, hf⟩
        exact ⟨p, hp, by simpa using hf⟩
      · rintro ⟨p, hp, hf⟩
        exact ⟨p, hp, by simpa using hf⟩
    by_cases hb : (splitOnChar '.' nl).any
        (fun p => startsWithChar '-' p || endsWithChar '-' p) = true
    · rw [if_pos hb]
      exact iff_of_true rfl (key.mp hb)
    · rw [if_neg hb]
      exact iff_of_false (by decide) fun hp => hb (key.mpr hp)
  · intro u r h hempty
    obtain ⟨sch, nl, hq, hr, hnet⟩ := extract_ok_elim h
    subst hr
    rw [hnet] at hempty
    subst hempty
    simp only [mkRecord]
    decide

/-- C5 (witness): the equivalence instantiated at the URL with host
`-evil.com`, which has the leading-hyphen label `-evil`. -/
theorem hyphen_in_subdomain_iff_label_edge_witness :
    FeatureRecord.hyphen_in_subdomain ⟨16, 9, 0, 0, 0, 1, 0, 1, 1, 0⟩ = 1 :=
  (hyphen_in_subdomain_iff_label_edge.1 (strL "http://-evil.com")
    ⟨16, 9, 0, 0, 0, 1, 0, 1, 1, 0⟩ (by decide)).mpr
    ⟨strL "-evil", by decide, Or.inl (by decide)⟩

/-- C6: `extract_features("")` returns url_length = 0, hostname_length = 0
and every boolean field (ip_in_url, https_in_url, at_sign, hyphen_in_url,
hyphen_in_subdomain, long_domain) equal to 0. -/
theorem empty_url_features :
    Except.map FeatureRecord.url_length (extract_features (strL "")) = Except.ok 0 ∧
    Except.map FeatureRecord.hostname_length (extract_features (strL "")) = Except.ok 0 ∧
    Except.map FeatureRecord.ip_in_url (extract_features (strL "")) = Except.ok 0 ∧
    Except.map FeatureRecord.https_in_url (extract_features (strL "")) = Except.ok 0 ∧
    Except.map FeatureRecord.at_sign (extract_features (strL "")) = Except.ok 0 ∧
    Except.map FeatureRecord.hyphen_in_url (extract_features (strL "")) = Except.ok 0 ∧
    Except.map FeatureRecord.hyphen_in_subdomain (extract_features (strL "")) = Except.ok 0 ∧
    Except.map FeatureRecord.long_domain (extract_features (strL "")) = Except.ok 0 := by
  decide

/-- C7: when the submitted input is the empty string or the unmodified
default placeholder `"https://"`, the button handler takes the warning
branch, which invokes neither `extract_features` nor the classifier's
`predict`/`predict_proba`; the user is only prompted for a real URL. -/
theorem placeholder_input_prompts :
    ∀ s : List Char, (s = [] ∨ s = strL "https://") →
      handleSubmit s = SubmitAction.promptForUrl := by
  intro s hs
  unfold handleSubmit
  rw [if_pos hs]

/-- C7 (witness): the empty submission takes the warning branch. -/
theorem placeholder_input_prompts_witness :
    handleSubmit [] = SubmitAction.promptForUrl :=
  placeholder_input_prompts [] (Or.inl rfl)

/-- C8: `extract_features` is deterministic — two calls on the same string
give equal results. -/
theorem extract_features_deterministic :
    ∀ s : List Char, extract_features s = extract_features s :=
  fun _ => rfl

/-- C9: every row returned by `extract_features` carries its columns in
the fixed order url_length, hostname_length, ip_in_url, https_in_url,
special_chars, num_dots, at_sign, hyphen_in_url, hyphen_in_subdomain,
long_domain — the insertion order of the `features` dict that the
classifier adapter relies on. -/
theorem feature_row_column_order :
    ∀ (u : List Char) (row : List (String × Nat)), extract_features_df u = Except.ok row →
      row.map Prod.fst =
        ["url_length", "hostname_length", "ip_in_url", "https_in_url", "special_chars",
         "num_dots", "at_sign", "hyphen_in_url", "hyphen_in_subdomain", "long_domain"] := by
  intro u row h
  unfold extract_features_df at h
  cases hq : extract_features u with
  | error e => rw [hq] at h; simp [Except.map] at h
  | ok r =>
    rw [hq] at h
    simp only [Except.map, Except.ok.injEq] at h
    rw [← h]
    rfl

/-- C9 (witness): the column order at the empty URL's row. -/
theorem feature_row_column_order_witness :
    (toRow ⟨0, 0, 0, 0, 0, 0, 0, 0, 0, 0⟩).map Prod.fst =
      ["url_length", "hostname_length", "ip_in_url", "https_in_url", "special_chars",
       "num_dots", "at_sign", "hyphen_in_url", "hyphen_in_subdomain", "long_domain"] :=
  feature_row_column_order (strL "") (toRow ⟨0, 0, 0, 0, 0, 0, 0, 0, 0, 0⟩) (by decide)

/-- C10: whenever `extract_features` returns a record,
hyphen_in_subdomain = 1 implies hyphen_in_url = 1 — an edge hyphen of a
host label is a character of the netloc, the netloc's characters come from
the (tab/CR/LF-stripped) raw URL, so the raw URL contains a hyphen. -/
theorem hyphen_subdomain_implies_hyphen_url :
    ∀ (u : List Char) (r : FeatureRecord), extract_features u = Except.ok r →
      r.hyphen_in_subdomain = 1 → r.hyphen_in_url = 1 := by
  intro u r h hsub
  obtain ⟨sch, nl, hq, hr, hnet⟩ := extract_ok_elim h
  subst hr
  simp only [mkRecord] at hsub ⊢
  by_cases hb : (splitOnChar '.' nl).any
      (fun p => startsWithChar '-' p || endsWithChar '-' p) = true
  · obtain ⟨p, hp, hf⟩ := List.any_eq_true.mp hb
    have hdm : '-' ∈ p := by
      rcases (by simpa using hf :
          startsWithChar '-' p = true ∨ endsWithChar '-' p = true) with hs | he
      · exact mem_of_startsWithChar hs
      · exact mem_of_endsWithChar he
    have h1 : '-' ∈ nl := mem_of_mem_splitOnChar hp hdm
    have h2 : '-' ∈ removeUnsafe u := netloc_mem hq h1
    have h3 : '-' ∈ u := (List.mem_filter.mp h2).1
    rw [if_pos h3]
  · rw [if_neg hb] at hsub
    exact absurd hsub (by decide)

/-- C10 (witness): the implication applied to the record of the URL with
host `-evil.com`. -/
theorem hyphen_subdomain_implies_hyphen_url_witness :
    FeatureRecord.hyphen_in_url ⟨16, 9, 0, 0, 0, 1, 0, 1, 1, 0⟩ = 1 :=
  hyphen_subdomain_implies_hyphen_url (strL "http://-evil.com")
    ⟨16, 9, 0, 0, 0, 1, 0, 1, 1, 0⟩ (by decide) (by decide)
